import Mathlib

/-!
# Verification of the StatCalc numerical core

A shallow embedding of the numerical library of the StatCalc repository
(`src/lib/math-utils` as re-exported through `src/app/page.tsx`) together
with the computation cores of the calculator components
(`poisson-calculator.tsx`, `hypergeometric-calculator.tsx`, the Normal
calculator).

JavaScript numbers are modelled by `JSVal`: an idealized IEEE double whose
finite values are exact reals (no rounding) but which keeps the special
values `Infinity`, `-Infinity` and `NaN` with their JavaScript comparison
and propagation semantics.  Overflow of combinatorial intermediates — which
the source detects with `isFinite` — is modelled by comparison with
`maxVal`, the exact value of `Number.MAX_VALUE`.  Functions that can
`throw` are embedded with an `Except DomainError` codomain so that error
propagation is explicit.
-/

open Classical

/-- The single kind of synchronous error the library ever throws
(`throw new Error(...)` in `factorial` / `logFactorial`). -/
inductive DomainError : Type where
  | domainError : DomainError
deriving DecidableEq

/-- An idealized JavaScript number: an exact real, `Infinity`, `-Infinity`
or `NaN`. -/
inductive JSVal : Type where
  | fin (x : ℝ) : JSVal
  | inf : JSVal
  | ninf : JSVal
  | nan : JSVal

/-- The exact value of `Number.MAX_VALUE` = (2^53 − 1)·2^971. -/
noncomputable def maxVal : ℝ := 2 ^ (1024 : ℕ) - 2 ^ (971 : ℕ)

/-- Predicate: `x` is a mathematical integer (the `Number.isInteger` test on a finite
value). -/
def isIntR (x : ℝ) : Prop := ∃ m : ℤ, x = (m : ℝ)

namespace JSVal

/-- JavaScript `<` on numbers: `NaN` compares false with everything. -/
def jsLt : JSVal → JSVal → Prop
  | fin x, fin y => x < y
  | fin _, inf => True
  | ninf, fin _ => True
  | ninf, inf => True
  | _, _ => False

/-- JavaScript `>` on numbers. -/
def jsGt (a b : JSVal) : Prop := jsLt b a

/-- JS `Number.isInteger`: true only for finite integral values. -/
def jsIsInteger : JSVal → Prop
  | fin x => isIntR x
  | _ => False

/-- JS `isFinite`: false for `NaN` and the infinities. -/
def jsIsFinite : JSVal → Prop
  | fin _ => True
  | _ => False

/-- The real carried by a finite value (used only where the source's guards
guarantee finiteness; junk value `0` otherwise). -/
def toR : JSVal → ℝ
  | fin x => x
  | _ => 0

/-- Unary minus. -/
def jsNeg : JSVal → JSVal
  | fin x => fin (-x)
  | inf => ninf
  | ninf => inf
  | nan => nan

/-- Addition (idealized: finite sums do not overflow). -/
def jsAdd : JSVal → JSVal → JSVal
  | nan, _ => nan
  | _, nan => nan
  | fin x, fin y => fin (x + y)
  | fin _, inf => inf
  | fin _, ninf => ninf
  | inf, fin _ => inf
  | ninf, fin _ => ninf
  | inf, inf => inf
  | ninf, ninf => ninf
  | inf, ninf => nan
  | ninf, inf => nan

/-- Subtraction, as `a + (-b)` (IEEE subtraction coincides with this). -/
def jsSub (a b : JSVal) : JSVal := jsAdd a (jsNeg b)

/-- Multiplication (idealized: finite products do not overflow;
`0 * ±Infinity = NaN`). -/
noncomputable def jsMul : JSVal → JSVal → JSVal
  | nan, _ => nan
  | _, nan => nan
  | fin x, fin y => fin (x * y)
  | fin x, inf => if 0 < x then inf else if x < 0 then ninf else nan
  | fin x, ninf => if 0 < x then ninf else if x < 0 then inf else nan
  | inf, fin y => if 0 < y then inf else if y < 0 then ninf else nan
  | ninf, fin y => if 0 < y then ninf else if y < 0 then inf else nan
  | inf, inf => inf
  | inf, ninf => ninf
  | ninf, inf => ninf
  | ninf, ninf => inf

/-- Division (idealized; division of a nonzero finite by zero gives a
signed infinity, `0/0 = NaN`; we do not model signed zero). -/
noncomputable def jsDiv : JSVal → JSVal → JSVal
  | nan, _ => nan
  | _, nan => nan
  | fin x, fin y =>
      if y = 0 then (if x = 0 then nan else if 0 < x then inf else ninf)
      else fin (x / y)
  | fin _, inf => fin 0
  | fin _, ninf => fin 0
  | inf, fin y => if 0 ≤ y then inf else ninf
  | ninf, fin y => if 0 ≤ y then ninf else inf
  | inf, inf => nan
  | inf, ninf => nan
  | ninf, inf => nan
  | ninf, ninf => nan

/-- JS `Math.exp` (idealized: no overflow to `Infinity`, no underflow to `0`
for finite arguments). -/
noncomputable def jsExp : JSVal → JSVal
  | fin x => fin (Real.exp x)
  | inf => inf
  | ninf => fin 0
  | nan => nan

/-- JS `Math.log`: `log 0 = -Infinity`, `log` of a negative is `NaN`. -/
noncomputable def jsLog : JSVal → JSVal
  | fin x => if 0 < x then fin (Real.log x) else if x = 0 then ninf else nan
  | inf => inf
  | ninf => nan
  | nan => nan

/-- JS `Math.pow`.  Exponent `0` gives `1` (even for `NaN` base); positive
bases use the real power `rpow`; negative bases require an integral
exponent; the remaining special cases follow ECMA semantics closely enough
for the (guarded) uses in this library. -/
noncomputable def jsPow : JSVal → JSVal → JSVal
  | b, fin e =>
      if e = 0 then fin 1
      else
        match b with
        | fin x =>
            if 0 < x then fin (x ^ e)
            else if x = 0 then (if 0 < e then fin 0 else inf)
            else if isIntR e then fin (x ^ (⌊e⌋ : ℤ)) else nan
        | inf => if 0 < e then inf else fin 0
        | ninf =>
            if 0 < e then (if ∃ m : ℤ, e = 2 * m + 1 then ninf else inf)
            else fin 0
        | nan => nan
  | nan, _ => nan
  | _, nan => nan
  | fin x, inf => if 1 < |x| then inf else if |x| = 1 then nan else fin 0
  | fin x, ninf => if 1 < |x| then fin 0 else if |x| = 1 then nan else inf
  | inf, inf => inf
  | inf, ninf => fin 0
  | ninf, inf => inf
  | ninf, ninf => fin 0

/-- JS `Math.max` of two values. -/
noncomputable def jsMax : JSVal → JSVal → JSVal
  | nan, _ => nan
  | _, nan => nan
  | fin x, fin y => fin (max x y)
  | inf, _ => inf
  | _, inf => inf
  | ninf, v => v
  | v, ninf => v

/-- JS `Math.min` of two values. -/
noncomputable def jsMin : JSVal → JSVal → JSVal
  | nan, _ => nan
  | _, nan => nan
  | fin x, fin y => fin (min x y)
  | ninf, _ => ninf
  | _, ninf => ninf
  | inf, v => v
  | v, inf => v

/-- JS `Math.round` on a real: round half towards positive infinity. -/
noncomputable def jsRound (x : ℝ) : ℝ := ((⌊x + 1 / 2⌋ : ℤ) : ℝ)

/-- JS `Math.round` lifted to values (`round Infinity = Infinity`,
`round NaN = NaN`). -/
noncomputable def jsRoundV : JSVal → JSVal
  | fin x => fin (jsRound x)
  | v => v

end JSVal

open JSVal

/-!
## The combinatorics / distribution library (`src/app/page.tsx`)
-/

/-- Source `continuousUniformCDF(a, b, x)`: F(x) of the Continuous Uniform
distribution; `NaN` for an invalid interval `a ≥ b`. -/
noncomputable def continuousUniformCDF (a b x : ℝ) : JSVal :=
  if a ≥ b then .nan
  else if x < a then .fin 0
  else if x > b then .fin 1
  else .fin ((x - a) / (b - a))

/-- The body of `factorial` after its negative-argument guard: the loop
`for (i = 2; i <= n; i++) result *= i` (the product over `i ∈ [2, ⌊n⌋]`),
followed by the `isFinite` overflow check that substitutes `Infinity`. -/
noncomputable def factorialCore (n : ℝ) : JSVal :=
  if n = 0 ∨ n = 1 then .fin 1
  else
    let result : ℝ := ∏ i in Finset.Icc 2 ⌊n⌋₊, (i : ℝ)
    if result ≤ maxVal then .fin result else .inf

/-- Source `factorial(n)`: throws a DomainError for `n < 0`, otherwise runs
`factorialCore`. -/
noncomputable def factorial (n : ℝ) : Except DomainError JSVal :=
  if n < 0 then .error .domainError else .ok (factorialCore n)

/-- Source `logFactorial(n)`: ln(n!) as the sum `ln 2 + ⋯ + ln n`; throws a
DomainError for a negative or non-integer argument. -/
noncomputable def logFactorial (n : ℝ) : Except DomainError ℝ :=
  if n < 0 ∨ ¬ isIntR n then .error .domainError
  else if n = 0 ∨ n = 1 then .ok 0
  else .ok (∑ i in Finset.Icc 2 ⌊n⌋₊, Real.log i)

/-- The logarithmic path of `combinations`: accumulate
`ln(n−i) − ln(i+1)` for `i ∈ [0, k)`, exponentiate, and round with the
`1e-9` tolerance (or report `Infinity` if the exponential is not finite). -/
noncomputable def combinationsLog (n k : ℝ) : JSVal :=
  let logResult : ℝ := ∑ i in Finset.range ⌈k⌉₊, (Real.log (n - i) - Real.log (i + 1))
  let result := Real.exp logResult
  if result ≤ maxVal then .fin (jsRound (result + 1e-9)) else .inf

/-- The body of `combinations` after its guards and the symmetry
replacement `k ↦ n − k`: the direct factorial path for `n < 30` (falling
through to the logarithmic path if an intermediate factorial overflowed),
the logarithmic path otherwise. -/
noncomputable def combinationsPost (n k : ℝ) : Except DomainError JSVal :=
  if n < 30 then
    (factorial n).bind fun factN =>
    (factorial k).bind fun factK =>
    (factorial (n - k)).bind fun factNK =>
      if factK = .inf ∨ factNK = .inf ∨ factN = .inf then
        -- empty `if` body in the source: fall through to the log method
        .ok (combinationsLog n k)
      else if jsGt factK (.fin 0) ∧ jsGt factNK (.fin 0) then
        let result := jsDiv factN (jsMul factK factNK)
        .ok (if jsIsFinite result then jsRoundV result else .inf)
      else .ok .inf
  else .ok (combinationsLog n k)

/-- Source `combinations(n, k)`: the binomial coefficient C(n,k); `0` outside
`0 ≤ k ≤ n`, `1` at the endpoints, and the symmetry reduction
`k ↦ n − k` when `k > n/2` before computing. -/
noncomputable def combinations (n k : ℝ) : Except DomainError JSVal :=
  if k < 0 ∨ k > n then .ok (.fin 0)
  else if k = 0 ∨ k = n then .ok (.fin 1)
  else combinationsPost n (if k > n / 2 then n - k else k)

/-- Source `poissonPMF(lambda, k)`: P(X = k) for Poisson(λ).  Returns `0` when
`λ < 0`, `k < 0` or `k` is not an integer; uses the log-space path for
`λ > 700` or `k > 170` and the direct factorial path otherwise.  `k.toR`
is justified by the initial guard: `Number.isInteger k` forces `k` to be
finite. -/
noncomputable def poissonPMF (lambda k : JSVal) : Except DomainError JSVal :=
  if jsLt lambda (.fin 0) ∨ jsLt k (.fin 0) ∨ ¬ jsIsInteger k then .ok (.fin 0)
  else if jsGt lambda (.fin 700) ∨ jsGt k (.fin 170) then
    (logFactorial k.toR).bind fun lf =>
      let logP := jsSub (jsAdd (jsNeg lambda) (jsMul k (jsLog lambda))) (.fin lf)
      let p := jsExp logP
      .ok (if jsIsFinite p then p else .fin 0)
  else
    (factorial k.toR).bind fun factK =>
      if factK = .inf then .ok (.fin 0)
      else
        let p := jsDiv (jsMul (jsExp (jsNeg lambda)) (jsPow lambda k)) factK
        .ok (if jsIsFinite p then p else .fin 0)

/-- Source `hypergeometricPMF(N, K, n, k)`: P(X = k) for Hypergeometric(N, K, n).
Any violated support constraint yields `0`; a zero or infinite denominator
`C(N,n)`, or an infinite numerator term, also yields `0`; otherwise the
ratio is computed and clamped into [0, 1]. -/
noncomputable def hypergeometricPMF (N K n k : ℝ) : Except DomainError JSVal :=
  if k < 0 ∨ n < 0 ∨ K < 0 ∨ N < 0 ∨
     ¬ isIntR N ∨ ¬ isIntR K ∨ ¬ isIntR n ∨ ¬ isIntR k ∨
     K > N ∨ n > N ∨ k > n ∨ k > K ∨ (n - k) > (N - K) then .ok (.fin 0)
  else
    (combinations K k).bind fun cKk =>
    (combinations (N - K) (n - k)).bind fun cNKnk =>
    (combinations N n).bind fun cNn =>
      if cNn = .fin 0 ∨ cNn = .inf then
        if cKk ≠ .inf ∧ cNKnk ≠ .inf ∧ cNn = .inf then .ok (.fin 0)
        else .ok (.fin 0)
      else if cKk = .inf ∨ cNKnk = .inf then .ok (.fin 0)
      else
        let probability := jsDiv (jsMul cKk cNKnk) cNn
        .ok (jsMax (.fin 0) (jsMin (.fin 1) probability))

/-- Source `hypergeometricMean(N, K, n)` = n·(K/N); `NaN` when `N ≤ 0`. -/
noncomputable def hypergeometricMean (N K n : ℝ) : JSVal :=
  if N ≤ 0 then .nan else .fin (n * (K / N))

/-- Source `hypergeometricVariance(N, K, n)`; `NaN` when `N ≤ 1`; floored at 0. -/
noncomputable def hypergeometricVariance (N K n : ℝ) : JSVal :=
  if N ≤ 1 then .nan
  else
    let p := K / N
    let variance := n * p * (1 - p) * ((N - n) / (N - 1))
    .fin (if variance ≥ 0 then variance else 0)

/-- Source `hypergeometricStdDev(N, K, n)` = √variance (`NaN` propagates). -/
noncomputable def hypergeometricStdDev (N K n : ℝ) : JSVal :=
  match hypergeometricVariance N K n with
  | .nan => .nan
  | .fin v => .fin (Real.sqrt v)
  | .inf => .inf
  | .ninf => .nan

/-- Source `continuousUniformPDF(a, b, x)`: 1/(b−a) on [a,b], 0 elsewhere and for
an invalid interval `a ≥ b`. -/
noncomputable def continuousUniformPDF (a b x : ℝ) : ℝ :=
  if a ≥ b then 0
  else if a ≤ x ∧ x ≤ b then 1 / (b - a)
  else 0

/-- Source `continuousUniformProbabilityInRange(a, b, val1, val2)`: reorder the
two bounds if needed, clamp each into [a,b], and return the normalized
length of the clamped interval (0 if it is degenerate). -/
noncomputable def continuousUniformProbabilityInRange (a b val1 val2 : ℝ) : ℝ :=
  if a ≥ b then 0
  else
    -- swap if x1 > x2
    let x1 := if val1 > val2 then val2 else val1
    let x2 := if val1 > val2 then val1 else val2
    let x1Clamped := max a (min b x1)
    let x2Clamped := max a (min b x2)
    if x2Clamped ≤ x1Clamped then 0
    else (x2Clamped - x1Clamped) / (b - a)

/-- Source `erf(x)`: the Abramowitz–Stegun 7.1.26 rational approximation of the
error function, computed on `|x|` with the sign restored at the end. -/
noncomputable def erf (x : ℝ) : ℝ :=
  let a1 : ℝ := 0.254829592
  let a2 : ℝ := -0.284496736
  let a3 : ℝ := 1.421413741
  let a4 : ℝ := -1.453152027
  let a5 : ℝ := 1.061405429
  let p : ℝ := 0.3275911
  let sign : ℝ := if x ≥ 0 then 1 else -1
  let ax := |x|
  let t := 1 / (1 + p * ax)
  let y := 1 - (((((a5 * t + a4) * t) + a3) * t + a2) * t + a1) * t * Real.exp (-ax * ax)
  sign * y

/-- The finite value computed by `normalCDF` when σ > 0:
Φ(x) = 0.5·(1 + erf((x−μ)/σ/√2)). -/
noncomputable def normalCDFr (x mean stdDev : ℝ) : ℝ :=
  let z := (x - mean) / stdDev
  0.5 * (1 + erf (z / Real.sqrt 2))

/-- Source `normalCDF(x, mean, stdDev)`: `NaN` for `σ ≤ 0`, otherwise `normalCDFr`. -/
noncomputable def normalCDF (x mean stdDev : ℝ) : JSVal :=
  if stdDev ≤ 0 then .nan else .fin (normalCDFr x mean stdDev)

/-- Source `normalPDF(x, mean, stdDev)`: the Gaussian density; `NaN` for `σ ≤ 0`. -/
noncomputable def normalPDF (x mean stdDev : ℝ) : JSVal :=
  if stdDev ≤ 0 then .nan
  else
    let exponent := -0.5 * ((x - mean) / stdDev) ^ (2 : ℕ)
    let coefficient := 1 / (stdDev * Real.sqrt (2 * Real.pi))
    .fin (coefficient * Real.exp exponent)

/-- Source `zScore(x, mean, stdDev)` = (x−μ)/σ; `NaN` for `σ ≤ 0`. -/
noncomputable def zScore (x mean stdDev : ℝ) : JSVal :=
  if stdDev ≤ 0 then .nan else .fin ((x - mean) / stdDev)

/-!
## The calculator components

The UI components receive form-validated parameters (integers where the
zod schemas demand integers) and run a pure `calculateProbabilities`
function; we embed those computation cores.  The clamp
`val ↦ max 0 (min 1 val)` is applied to the returned record only; the
pre-clamping values are exposed through the `...CalcRaw` records.
-/

/-- The clamp `(val) => Math.max(0, Math.min(1, val))` used by every
component before returning a probability. -/
noncomputable def clamp (val : ℝ) : ℝ := max 0 (min 1 val)

/-- The numeric value of `poissonPMF` on finite arguments.  `poissonPMF`
always succeeds with a finite value (proved below), so the fallback arms
are junk. -/
noncomputable def poissonPMFr (lambda k : ℝ) : ℝ :=
  match poissonPMF (.fin lambda) (.fin k) with
  | .ok v => v.toR
  | .error _ => 0

/-- Accumulator of the Poisson component's summation loop: the
`probabilities` array, `p_eq_x` and `p_lt_x`. -/
structure PoisLoopSt where
  probs : List ℝ
  p_eq : ℝ
  p_lt : ℝ

/-- The Poisson component's `for (k = 0; k < upperLimit; k++)` loop, with
its early `break` when the term is negligible (`< 1e-15`; the `isNaN`
disjunct of the source can never hold for the real-valued PMF) and
`k > lambda + 5*stdDev`.  `fuel` is the number of remaining iterations. -/
noncomputable def poissonLoop (lambda stdDev : ℝ) (xValue : ℕ) :
    ℕ → ℕ → PoisLoopSt → PoisLoopSt
  | _, 0, st => st
  | k, fuel + 1, st =>
      let prob := poissonPMFr lambda k
      if prob < 1e-15 ∧ (k : ℝ) > lambda + 5 * stdDev then st
      else
        poissonLoop lambda stdDev xValue (k + 1) fuel
          { probs := st.probs ++ [prob]
            p_eq := if k = xValue then prob else st.p_eq
            p_lt := if k < xValue then st.p_lt + prob else st.p_lt }

/-- The five cumulative quantities of the Poisson component before
clamping. -/
structure PoissonRaw where
  p_eq : ℝ
  p_lt : ℝ
  p_lte : ℝ
  p_gt : ℝ
  p_gte : ℝ

/-- The Poisson component's computation core: run the loop up to
`upperLimit = max(x+1, ⌈λ + 10·√λ + 10⌉)`, recover `P(X≤x)` from the
stored `probabilities` array (`slice(0, x+1)` summed), and derive the
complements algebraically: `p_gt = 1 − p_lte`, `p_gte = 1 − p_lt`. -/
noncomputable def poissonCalcRaw (lambda : ℝ) (xValue : ℕ) : PoissonRaw :=
  let stdDev := Real.sqrt lambda
  let upperLimit : ℕ := max (xValue + 1) ⌈lambda + 10 * stdDev + 10⌉₊
  let st := poissonLoop lambda stdDev xValue 0 upperLimit ⟨[], 0, 0⟩
  let p_lte := (st.probs.take (xValue + 1)).sum
  { p_eq := st.p_eq
    p_lt := st.p_lt
    p_lte := p_lte
    p_gt := 1 - p_lte
    p_gte := 1 - st.p_lt }

/-- The record the Poisson component returns. -/
structure PoissonResults where
  mean : ℝ
  variance : ℝ
  stdDev : ℝ
  p_eq_x : ℝ
  p_lt_x : ℝ
  p_lte_x : ℝ
  p_gt_x : ℝ
  p_gte_x : ℝ

/-- The Poisson component's `calculateProbabilities(lambda, x)`.  The
source's `isNaN(stdDev) ? 0 : stdDev` coincides with `Real.sqrt` (both are
`0` exactly when `lambda < 0`). -/
noncomputable def poissonCalculateProbabilities (lambda : ℝ) (xValue : ℕ) :
    PoissonResults :=
  let raw := poissonCalcRaw lambda xValue
  { mean := lambda
    variance := lambda
    stdDev := Real.sqrt lambda
    p_eq_x := clamp raw.p_eq
    p_lt_x := clamp raw.p_lt
    p_lte_x := clamp raw.p_lte
    p_gt_x := clamp raw.p_gt
    p_gte_x := clamp raw.p_gte }

/-- The numeric value of `hypergeometricPMF` (always succeeds with a
finite value, proved below; fallback arms are junk). -/
noncomputable def hypergeometricPMFr (N K n k : ℝ) : ℝ :=
  match hypergeometricPMF N K n k with
  | .ok v => v.toR
  | .error _ => 0

/-- The Hypergeometric component's pre-clamping quantities, together with
the precision-warning condition it surfaces as a toast. -/
structure HyperRaw where
  warning : Prop
  p_eq : ℝ
  p_lt : ℝ
  p_lte : ℝ
  p_gt : ℝ
  p_gte : ℝ

/-- The Hypergeometric component's computation core: a single pass of
`hypergeometricPMF` over the support `[kMin, kMax]`
(`kMin = max(0, n−(N−K))`, `kMax = min(n, K)`), accumulating `P(X=k)`,
`P(X<k)` and `P(X≤k)`, with the complements derived algebraically.  The
`warning` field records the `combinations(N, n) === Infinity && n > 0`
toast condition; the computation proceeds regardless. -/
noncomputable def hypergeometricCalcRaw (N K n kValue : ℕ) : HyperRaw :=
  let kMin : ℕ := ((n : ℤ) - ((N : ℤ) - (K : ℤ))).toNat
  let kMax : ℕ := min n K
  let p_eq := ∑ i in Finset.Icc kMin kMax,
      if i = kValue then hypergeometricPMFr N K n i else 0
  let p_lt := ∑ i in (Finset.Icc kMin kMax).filter (fun i => i < kValue),
      hypergeometricPMFr N K n i
  let p_lte := ∑ i in (Finset.Icc kMin kMax).filter (fun i => i ≤ kValue),
      hypergeometricPMFr N K n i
  { warning := combinations (N : ℝ) (n : ℝ) = .ok .inf ∧ 0 < n
    p_eq := p_eq
    p_lt := p_lt
    p_lte := p_lte
    p_gt := 1 - p_lte
    p_gte := 1 - p_lt }

/-- The record the Hypergeometric component returns (`isNaN(·) ? 0 : ·`
on the moments is exactly `JSVal.toR`). -/
structure HyperResults where
  mean : ℝ
  variance : ℝ
  stdDev : ℝ
  p_eq_k : ℝ
  p_lt_k : ℝ
  p_lte_k : ℝ
  p_gt_k : ℝ
  p_gte_k : ℝ
  warning : Prop

/-- The Hypergeometric component's `calculateProbabilities(N, K, n, k)`. -/
noncomputable def hypergeometricCalculateProbabilities (N K n kValue : ℕ) :
    HyperResults :=
  let raw := hypergeometricCalcRaw N K n kValue
  { mean := (hypergeometricMean N K n).toR
    variance := (hypergeometricVariance N K n).toR
    stdDev := (hypergeometricStdDev N K n).toR
    p_eq_k := clamp raw.p_eq
    p_lt_k := clamp raw.p_lt
    p_lte_k := clamp raw.p_lte
    p_gt_k := clamp raw.p_gt
    p_gte_k := clamp raw.p_gte
    warning := raw.warning }

/-- The Normal component's single-`x` tab: z-score, density, `P(X<x)` from
`normalCDF` (returned without clamping) and `P(X>x) = 1 − P(X<x)`. -/
structure NormalSingleResults where
  zScoreX : JSVal
  pdfX : JSVal
  prob_less_than_x : JSVal
  prob_greater_than_x : JSVal

/-- The Normal component's single-`x` computation. -/
noncomputable def normalCalculateSingle (mean stdDev xValue : ℝ) :
    NormalSingleResults :=
  let less := normalCDF xValue mean stdDev
  { zScoreX := zScore xValue mean stdDev
    pdfX := normalPDF xValue mean stdDev
    prob_less_than_x := less
    prob_greater_than_x := jsSub (.fin 1) less }

/-- The Normal component's range tab: `P(x1<X<x2) = CDF(x2) − CDF(x1)`
(the form schema enforces `x1 < x2`). -/
noncomputable def normalProbBetween (mean stdDev x1 x2 : ℝ) : JSVal :=
  jsSub (normalCDF x2 mean stdDev) (normalCDF x1 mean stdDev)

/-!
## Helper lemmas
-/

theorem one_le_maxVal : (1 : ℝ) ≤ maxVal := by norm_num [maxVal]

theorem prod_Icc_two_eq_factorial (m : ℕ) :
    ∏ i in Finset.Icc 2 m, (i : ℝ) = (Nat.factorial m : ℝ) := by
  induction m with
  | zero => simp [Nat.factorial]
  | succ m ih =>
    rcases Nat.lt_or_ge m 1 with hm | hm
    · interval_cases m
      simp [Nat.factorial]
    · rw [Finset.prod_Icc_succ_top (by omega : 2 ≤ m + 1), ih, Nat.factorial_succ]
      push_cast
      ring

/-- Normal form of the range probability: sorted bounds as min/max, then
clamped. -/
theorem cuRange_minmax (a b v1 v2 : ℝ) (hab : a < b) :
    continuousUniformProbabilityInRange a b v1 v2 =
      (if max a (min b (max v1 v2)) ≤ max a (min b (min v1 v2)) then 0
       else (max a (min b (max v1 v2)) - max a (min b (min v1 v2))) / (b - a)) := by
  rcases le_or_lt v1 v2 with h | h
  · simp only [continuousUniformProbabilityInRange, if_neg (not_le.mpr hab),
      if_neg (not_lt.mpr h), max_eq_right h, min_eq_left h]
  · simp only [continuousUniformProbabilityInRange, if_neg (not_le.mpr hab),
      if_pos h, max_eq_left h.le, min_eq_right h.le]

/-!
## Claims
-/

/-- C8: domain violations treated as undefined quantities return NaN, and
the policy stays distinct from the 0 policy: `normalCDF`, `normalPDF` and
`zScore` are NaN for σ ≤ 0; `continuousUniformCDF` is NaN for a ≥ b while
`continuousUniformPDF` is 0 there; `hypergeometricMean` is NaN for N ≤ 0
and `hypergeometricVariance` is NaN for N ≤ 1. -/
theorem spec_c8 :
    (∀ x mean stdDev : ℝ, stdDev ≤ 0 →
        normalCDF x mean stdDev = .nan ∧ normalPDF x mean stdDev = .nan ∧
        zScore x mean stdDev = .nan) ∧
    (∀ a b x : ℝ, a ≥ b →
        continuousUniformCDF a b x = .nan ∧ continuousUniformPDF a b x = 0) ∧
    (∀ N K n : ℝ, N ≤ 0 → hypergeometricMean N K n = .nan) ∧
    (∀ N K n : ℝ, N ≤ 1 → hypergeometricVariance N K n = .nan) := by
  refine ⟨fun x mean stdDev h => ⟨?_, ?_, ?_⟩, fun a b x h => ⟨?_, ?_⟩,
    fun N K n h => ?_, fun N K n h => ?_⟩ <;>
    simp [normalCDF, normalPDF, zScore, continuousUniformCDF, continuousUniformPDF,
      hypergeometricMean, hypergeometricVariance, h]

/-- Witness for C8 at concrete inputs. -/
theorem spec_c8_witness :
    normalCDF 0 0 0 = .nan ∧ continuousUniformCDF 1 1 0 = .nan ∧
    hypergeometricMean 0 1 1 = .nan ∧ hypergeometricVariance 1 1 1 = .nan :=
  ⟨(spec_c8.1 0 0 0 le_rfl).1, (spec_c8.2.1 1 1 0 le_rfl).1,
   spec_c8.2.2.1 0 1 1 le_rfl, spec_c8.2.2.2 1 1 1 le_rfl⟩

/-- C9: for a < b the range probability is symmetric in its two bounds
(they are reordered before clamping), equals the normalized length of the
clamped interval (0 when degenerate), and in particular both argument
orders give exactly 0.6 on (a,b) = (0,10), bounds 2 and 8. -/
theorem spec_c9 :
    (∀ a b v1 v2 : ℝ, a < b →
        continuousUniformProbabilityInRange a b v1 v2 =
          continuousUniformProbabilityInRange a b v2 v1 ∧
        continuousUniformProbabilityInRange a b v1 v2 =
          (if max a (min b (max v1 v2)) ≤ max a (min b (min v1 v2)) then 0
           else (max a (min b (max v1 v2)) - max a (min b (min v1 v2))) / (b - a))) ∧
    continuousUniformProbabilityInRange 0 10 2 8 = 0.6 ∧
    continuousUniformProbabilityInRange 0 10 8 2 = 0.6 := by
  refine ⟨fun a b v1 v2 hab => ⟨?_, cuRange_minmax a b v1 v2 hab⟩, ?_, ?_⟩
  · rw [cuRange_minmax a b v1 v2 hab, cuRange_minmax a b v2 v1 hab,
      min_comm v2 v1, max_comm v2 v1]
  · rw [cuRange_minmax 0 10 2 8 (by norm_num)]
    norm_num [min_def, max_def]
  · rw [cuRange_minmax 0 10 8 2 (by norm_num)]
    norm_num [min_def, max_def]

/-- Witness for C9: the general part applied at (0,10,2,8). -/
theorem spec_c9_witness :
    (0 : ℝ) < 10 ∧
    continuousUniformProbabilityInRange 0 10 2 8 =
      continuousUniformProbabilityInRange 0 10 8 2 :=
  ⟨by norm_num, (spec_c9.1 0 10 2 8 (by norm_num)).1⟩

/-- C7: domain violations treated as impossible events return 0 without
throwing: `poissonPMF` for λ < 0, k < 0 or non-integer k; and
`hypergeometricPMF` whenever any support constraint is violated. -/
theorem spec_c7 :
    (∀ lambda k : ℝ, lambda < 0 ∨ k < 0 ∨ ¬ isIntR k →
        poissonPMF (.fin lambda) (.fin k) = .ok (.fin 0)) ∧
    (∀ N K n k : ℝ,
        (k < 0 ∨ n < 0 ∨ K < 0 ∨ N < 0 ∨
         ¬ isIntR N ∨ ¬ isIntR K ∨ ¬ isIntR n ∨ ¬ isIntR k ∨
         K > N ∨ n > N ∨ k > n ∨ k > K ∨ (n - k) > (N - K)) →
        hypergeometricPMF N K n k = .ok (.fin 0)) := by
  constructor
  · intro lambda k h
    unfold poissonPMF
    rw [if_pos]
    simpa [JSVal.jsLt, JSVal.jsIsInteger] using h
  · intro N K n k h
    unfold hypergeometricPMF
    rw [if_pos h]

/-- Witness for C7: a negative Poisson count and K > N for the
hypergeometric. -/
theorem spec_c7_witness :
    poissonPMF (.fin 1) (.fin (-1)) = .ok (.fin 0) ∧
    hypergeometricPMF 2 3 1 0 = .ok (.fin 0) :=
  ⟨spec_c7.1 1 (-1) (Or.inr (Or.inl (by norm_num))),
   spec_c7.2 2 3 1 0 (by norm_num)⟩

set_option maxRecDepth 4000 in
set_option exponentiation.threshold 1100 in
theorem maxVal_lt_fact171 : maxVal < (Nat.factorial 171 : ℝ) := by
  have h : (2 : ℕ) ^ 1024 ≤ Nat.factorial 171 := by decide
  have h2 : ((2 : ℕ) ^ 1024 : ℝ) ≤ (Nat.factorial 171 : ℝ) := by exact_mod_cast h
  have h3 : maxVal < ((2 : ℕ) ^ 1024 : ℝ) := by push_cast; norm_num [maxVal]
  linarith

/-- C6: factorial(0) = factorial(1) = 1; for n ≥ 2 with representable
true factorial the exact product is returned; negative arguments fail
with a DomainError; a factorial beyond the representable range returns
the positive-infinity sentinel. -/
theorem spec_c6 :
    factorial 0 = .ok (.fin 1) ∧ factorial 1 = .ok (.fin 1) ∧
    (∀ n : ℕ, 2 ≤ n → (Nat.factorial n : ℝ) ≤ maxVal →
        factorial (n : ℝ) = .ok (.fin (Nat.factorial n : ℝ))) ∧
    (∀ x : ℝ, x < 0 → factorial x = .error .domainError) ∧
    (∀ n : ℕ, maxVal < (Nat.factorial n : ℝ) → factorial (n : ℝ) = .ok .inf) := by
  refine ⟨by norm_num [factorial, factorialCore], by norm_num [factorial, factorialCore],
    ?_, fun x hx => by simp [factorial, hx], ?_⟩
  · intro n h2 hle
    have h0 : ¬((n : ℝ) = 0 ∨ (n : ℝ) = 1) := by
      push_neg
      constructor
      · exact_mod_cast (show n ≠ 0 by omega)
      · exact_mod_cast (show n ≠ 1 by omega)
    simp only [factorial, factorialCore, Nat.floor_natCast, prod_Icc_two_eq_factorial]
    rw [if_neg (not_lt.mpr (Nat.cast_nonneg n)), if_neg h0, if_pos hle]
  · intro n hlt
    have h0 : ¬((n : ℝ) = 0 ∨ (n : ℝ) = 1) := by
      rintro (h | h)
      · have hn : n = 0 := by exact_mod_cast h
        rw [hn] at hlt
        simp [Nat.factorial] at hlt
        linarith [one_le_maxVal]
      · have hn : n = 1 := by exact_mod_cast h
        rw [hn] at hlt
        simp [Nat.factorial] at hlt
        linarith [one_le_maxVal]
    simp only [factorial, factorialCore, Nat.floor_natCast, prod_Icc_two_eq_factorial]
    rw [if_neg (not_lt.mpr (Nat.cast_nonneg n)), if_neg h0, if_neg (not_le.mpr hlt)]

/-- Witness for C6: exact value at 3, DomainError at −1, infinity sentinel
at 171. -/
theorem spec_c6_witness :
    ((2 : ℕ) ≤ 3 ∧ (Nat.factorial 3 : ℝ) ≤ maxVal ∧
      factorial ((3 : ℕ) : ℝ) = .ok (.fin (Nat.factorial 3 : ℝ))) ∧
    ((-1 : ℝ) < 0 ∧ factorial (-1) = .error .domainError) ∧
    (maxVal < (Nat.factorial 171 : ℝ) ∧ factorial ((171 : ℕ) : ℝ) = .ok .inf) := by
  have h3 : (Nat.factorial 3 : ℝ) ≤ maxVal := by
    norm_num [Nat.factorial, maxVal]
  exact ⟨⟨by norm_num, h3, spec_c6.2.2.1 3 (by norm_num) h3⟩,
    ⟨by norm_num, spec_c6.2.2.2.1 (-1) (by norm_num)⟩,
    ⟨maxVal_lt_fact171, spec_c6.2.2.2.2 171 maxVal_lt_fact171⟩⟩

/-- For 0 ≤ k ≤ n the two guards and the symmetry replacement make
`combinations n k` and `combinations n (n−k)` run the identical
computation. -/
theorem combinations_symm_real (n k : ℝ) (h0 : 0 ≤ k) (h1 : k ≤ n) :
    combinations n k = combinations n (n - k) := by
  have hg1 : ¬(k < 0 ∨ k > n) := by push_neg; exact ⟨h0, h1⟩
  have hg2 : ¬(n - k < 0 ∨ n - k > n) := by push_neg; constructor <;> linarith
  unfold combinations
  rw [if_neg hg1, if_neg hg2]
  by_cases hk0 : k = 0
  · rw [if_pos (Or.inl hk0), if_pos (Or.inr (by rw [hk0]; ring))]
  · by_cases hkn : k = n
    · rw [if_pos (Or.inr hkn), if_pos (Or.inl (by rw [hkn]; ring))]
    · have hkn2 : ¬(n - k = 0 ∨ n - k = n) := by
        push_neg
        constructor
        · intro h; exact hkn (by linarith)
        · intro h; exact hk0 (by linarith)
      rw [if_neg (by push_neg; exact ⟨hk0, hkn⟩), if_neg hkn2]
      rcases lt_trichotomy k (n / 2) with h | h | h
      · rw [if_neg (by linarith : ¬(k > n / 2)), if_pos (by linarith : n - k > n / 2),
          sub_sub_cancel]
      · rw [if_neg (by linarith : ¬(k > n / 2)), if_neg (by linarith : ¬(n - k > n / 2))]
        have he : n - k = k := by linarith
        rw [he]
      · rw [if_pos h, if_neg (by linarith : ¬(n - k > n / 2))]

/-- C4: for all integers 0 ≤ k ≤ n, combinations(n, k) equals
combinations(n, n−k), on the direct-factorial path and the log-space path
alike. -/
theorem spec_c4 (n k : ℕ) (hk : k ≤ n) :
    combinations (n : ℝ) (k : ℝ) = combinations (n : ℝ) ((n : ℝ) - (k : ℝ)) :=
  combinations_symm_real _ _ (Nat.cast_nonneg k) (Nat.cast_le.mpr hk)

/-- Witness for C4: one instance on the direct path (n = 5 < 30) and one
on the log-space path (n = 52 ≥ 30). -/
theorem spec_c4_witness :
    ((2 : ℕ) ≤ 5 ∧
      combinations ((5 : ℕ) : ℝ) ((2 : ℕ) : ℝ) =
        combinations ((5 : ℕ) : ℝ) (((5 : ℕ) : ℝ) - ((2 : ℕ) : ℝ))) ∧
    ((5 : ℕ) ≤ 52 ∧
      combinations ((52 : ℕ) : ℝ) ((5 : ℕ) : ℝ) =
        combinations ((52 : ℕ) : ℝ) (((52 : ℕ) : ℝ) - ((5 : ℕ) : ℝ))) :=
  ⟨⟨by norm_num, spec_c4 5 2 (by norm_num)⟩, ⟨by norm_num, spec_c4 52 5 (by norm_num)⟩⟩

/-- Value of the log-space accumulation for C(52,5): the sum of
`ln(52−i) − ln(i+1)` over i < 5 is ln 2598960. -/
theorem log_sum_52_5 :
    ∑ i in Finset.range 5, (Real.log ((52 : ℝ) - i) - Real.log ((i : ℝ) + 1)) =
      Real.log 2598960 := by
  rw [Finset.sum_range_succ, Finset.sum_range_succ, Finset.sum_range_succ,
    Finset.sum_range_succ, Finset.sum_range_succ, Finset.sum_range_zero]
  push_cast
  rw [← Real.log_div (by norm_num) (by norm_num),
    ← Real.log_div (by norm_num) (by norm_num),
    ← Real.log_div (by norm_num) (by norm_num),
    ← Real.log_div (by norm_num) (by norm_num),
    ← Real.log_div (by norm_num) (by norm_num), zero_add,
    ← Real.log_mul (by norm_num) (by norm_num),
    ← Real.log_mul (by norm_num) (by norm_num),
    ← Real.log_mul (by norm_num) (by norm_num),
    ← Real.log_mul (by norm_num) (by norm_num)]
  norm_num

/-- C5: combinations(0,0) = 1, combinations(5,7) = 0, and the log-space
path recovers C(52,5) = 2598960 exactly after the 1e-9 tolerance and
rounding. -/
theorem spec_c5 :
    combinations 0 0 = .ok (.fin 1) ∧
    combinations 5 7 = .ok (.fin 0) ∧
    combinations 52 5 = .ok (.fin 2598960) := by
  refine ⟨?_, ?_, ?_⟩
  · unfold combinations
    rw [if_neg (by norm_num), if_pos (Or.inl rfl)]
  · unfold combinations
    rw [if_pos (Or.inr (by norm_num))]
  · unfold combinations
    rw [if_neg (by norm_num), if_neg (by norm_num),
      if_neg (by norm_num : ¬((5 : ℝ) > 52 / 2))]
    unfold combinationsPost
    rw [if_neg (by norm_num : ¬((52 : ℝ) < 30))]
    unfold combinationsLog
    simp only [Nat.ceil_ofNat, log_sum_52_5, Real.exp_log (by norm_num : (0 : ℝ) < 2598960)]
    rw [if_pos (by norm_num [maxVal] : (2598960 : ℝ) ≤ maxVal)]
    unfold JSVal.jsRound
    norm_num

/-- Helper: a value passing the `isFinite` test is a `fin`. -/
theorem exists_fin_of_isFinite (p : JSVal) (h : jsIsFinite p) : ∃ r : ℝ, p = .fin r := by
  cases p with
  | fin x => exact ⟨x, rfl⟩
  | inf => exact absurd h (by simp [JSVal.jsIsFinite])
  | ninf => exact absurd h (by simp [JSVal.jsIsFinite])
  | nan => exact absurd h (by simp [JSVal.jsIsFinite])

/-- Helper: `poissonPMF` always succeeds, and with a finite value. -/
theorem poissonPMF_fin (lambda k : JSVal) :
    ∃ r : ℝ, poissonPMF lambda k = .ok (.fin r) := by
  unfold poissonPMF
  by_cases hg : jsLt lambda (.fin 0) ∨ jsLt k (.fin 0) ∨ ¬ jsIsInteger k
  · rw [if_pos hg]; exact ⟨0, rfl⟩
  · rw [if_neg hg]
    push_neg at hg
    obtain ⟨h1, h2, h3⟩ := hg
    cases k with
    | inf => exact absurd h3 (by simp [JSVal.jsIsInteger])
    | ninf => exact absurd h3 (by simp [JSVal.jsIsInteger])
    | nan => exact absurd h3 (by simp [JSVal.jsIsInteger])
    | fin x =>
      have hx0 : 0 ≤ x := not_lt.mp (by simpa [JSVal.jsLt] using h2)
      have hxint : isIntR x := by simpa [JSVal.jsIsInteger] using h3
      simp only [JSVal.toR]
      by_cases hb : jsGt lambda (.fin 700) ∨ jsGt (JSVal.fin x) (.fin 170)
      · rw [if_pos hb]
        obtain ⟨r0, hr⟩ : ∃ r0, logFactorial x = .ok r0 := by
          unfold logFactorial
          rw [if_neg (by push_neg; exact ⟨hx0, hxint⟩)]
          split_ifs <;> exact ⟨_, rfl⟩
        rw [hr]
        simp only [Except.bind]
        split_ifs with hfin
        · obtain ⟨r, hrr⟩ := exists_fin_of_isFinite _ hfin
          exact ⟨r, by rw [hrr]⟩
        · exact ⟨0, rfl⟩
      · rw [if_neg hb]
        rw [show factorial x = .ok (factorialCore x) from by
          unfold factorial; rw [if_neg (not_lt.mpr hx0)]]
        simp only [Except.bind]
        split_ifs with hinf hfin
        · exact ⟨0, rfl⟩
        · obtain ⟨r, hrr⟩ := exists_fin_of_isFinite _ hfin
          exact ⟨r, by rw [hrr]⟩
        · exact ⟨0, rfl⟩

/-- C10: poissonPMF is total: for every pair of arguments — NaN,
infinities, negative and non-integer values included — it returns a
number and never throws; in particular the DomainError branches of
`logFactorial` / `factorial` are unreachable from it. -/
theorem spec_c10 (lambda k : JSVal) : ∃ v : JSVal, poissonPMF lambda k = .ok v :=
  match poissonPMF_fin lambda k with
  | ⟨r, h⟩ => ⟨.fin r, h⟩

/-- C1: for valid Poisson inputs (λ ≥ 0, integer x ≥ 0) and valid
Hypergeometric inputs (K ≤ N, n ≤ N), the engines derive the complements
algebraically — P(X>k) = 1 − P(X≤k) and P(X≥k) = 1 − P(X<k) — so the
pre-clamping pairs sum to exactly 1. -/
theorem spec_c1 :
    (∀ (lambda : ℝ) (x : ℕ), 0 ≤ lambda →
        (poissonCalcRaw lambda x).p_gt = 1 - (poissonCalcRaw lambda x).p_lte ∧
        (poissonCalcRaw lambda x).p_gte = 1 - (poissonCalcRaw lambda x).p_lt ∧
        (poissonCalcRaw lambda x).p_lte + (poissonCalcRaw lambda x).p_gt = 1 ∧
        (poissonCalcRaw lambda x).p_lt + (poissonCalcRaw lambda x).p_gte = 1) ∧
    (∀ N K n k : ℕ, K ≤ N → n ≤ N →
        (hypergeometricCalcRaw N K n k).p_gt = 1 - (hypergeometricCalcRaw N K n k).p_lte ∧
        (hypergeometricCalcRaw N K n k).p_gte = 1 - (hypergeometricCalcRaw N K n k).p_lt ∧
        (hypergeometricCalcRaw N K n k).p_lte + (hypergeometricCalcRaw N K n k).p_gt = 1 ∧
        (hypergeometricCalcRaw N K n k).p_lt + (hypergeometricCalcRaw N K n k).p_gte = 1) := by
  constructor
  · intro lambda x _
    refine ⟨rfl, rfl, ?_, ?_⟩ <;> (simp only [poissonCalcRaw]; ring)
  · intro N K n k _ _
    refine ⟨rfl, rfl, ?_, ?_⟩ <;> (simp only [hypergeometricCalcRaw]; ring)

/-- Witness for C1 at λ = 2, x = 1 and N = 5, K = 2, n = 2, k = 1. -/
theorem spec_c1_witness :
    ((0 : ℝ) ≤ 2 ∧
      (poissonCalcRaw 2 1).p_lte + (poissonCalcRaw 2 1).p_gt = 1) ∧
    ((2 : ℕ) ≤ 5 ∧
      (hypergeometricCalcRaw 5 2 2 1).p_lte + (hypergeometricCalcRaw 5 2 2 1).p_gt = 1) :=
  ⟨⟨by norm_num, (spec_c1.1 2 1 (by norm_num)).2.2.1⟩,
   ⟨by norm_num, (spec_c1.2 5 2 2 1 (by norm_num) (by norm_num)).2.2.1⟩⟩

/-- Helper: the logarithmic path of `combinations` yields a finite value
or the infinity sentinel, never NaN. -/
theorem combinationsLog_fin_or_inf (n k : ℝ) :
    (∃ r : ℝ, combinationsLog n k = .fin r) ∨ combinationsLog n k = .inf := by
  simp only [combinationsLog]
  split_ifs
  · exact Or.inl ⟨_, rfl⟩
  · exact Or.inr rfl

/-- Helper: `combinationsPost` on a normalized 0 < k < n yields a finite
value or the infinity sentinel (and never throws). -/
theorem combinationsPost_fin_or_inf (n k : ℝ) (h0 : 0 < k) (h1 : k < n) :
    (∃ r : ℝ, combinationsPost n k = .ok (.fin r)) ∨
      combinationsPost n k = .ok .inf := by
  have hn : ¬(n < 0) := by push_neg; linarith
  have hk : ¬(k < 0) := by push_neg; linarith
  have hnk : ¬(n - k < 0) := by push_neg; linarith
  unfold combinationsPost
  rw [show factorial n = .ok (factorialCore n) from by unfold factorial; rw [if_neg hn],
    show factorial k = .ok (factorialCore k) from by unfold factorial; rw [if_neg hk],
    show factorial (n - k) = .ok (factorialCore (n - k)) from by
      unfold factorial; rw [if_neg hnk]]
  simp only [Except.bind]
  split_ifs with h30 c1 c2 c3
  · rcases combinationsLog_fin_or_inf n k with ⟨r, hr⟩ | hr
    · exact Or.inl ⟨r, by rw [hr]⟩
    · exact Or.inr (by rw [hr])
  · obtain ⟨r, hr⟩ := exists_fin_of_isFinite _ c3
    exact Or.inl ⟨JSVal.jsRound r, by rw [hr]; rfl⟩
  · exact Or.inr rfl
  · exact Or.inr rfl
  · rcases combinationsLog_fin_or_inf n k with ⟨r, hr⟩ | hr
    · exact Or.inl ⟨r, by rw [hr]⟩
    · exact Or.inr (by rw [hr])

/-- Helper: `combinations` never throws and never produces NaN or
negative infinity: it is a finite value or the infinity sentinel. -/
theorem combinations_fin_or_inf (n k : ℝ) :
    (∃ r : ℝ, combinations n k = .ok (.fin r)) ∨ combinations n k = .ok .inf := by
  unfold combinations
  split_ifs with h1 h2 h3
  · exact Or.inl ⟨0, rfl⟩
  · exact Or.inl ⟨1, rfl⟩
  · push_neg at h1 h2
    exact combinationsPost_fin_or_inf n (n - k)
      (by linarith [lt_of_le_of_ne h1.2 h2.2]) (by linarith [lt_of_le_of_ne h1.1 (Ne.symm h2.1)])
  · push_neg at h1 h2
    exact combinationsPost_fin_or_inf n k
      (lt_of_le_of_ne h1.1 (Ne.symm h2.1)) (lt_of_le_of_ne h1.2 h2.2)

/-- Helper: `hypergeometricPMF` always succeeds with a finite value:
never a throw, never NaN, never Infinity. -/
theorem hypergeometricPMF_fin (N K n k : ℝ) :
    ∃ r : ℝ, hypergeometricPMF N K n k = .ok (.fin r) := by
  unfold hypergeometricPMF
  split_ifs with hg
  · exact ⟨0, rfl⟩
  · rcases combinations_fin_or_inf N n with ⟨r3, hc3⟩ | hc3
    · rcases combinations_fin_or_inf K k with ⟨r1, hc1⟩ | hc1
      · rcases combinations_fin_or_inf (N - K) (n - k) with ⟨r2, hc2⟩ | hc2
        · rw [hc1, hc2, hc3]
          simp only [Except.bind]
          by_cases h0 : (JSVal.fin r3 = JSVal.fin 0 ∨ JSVal.fin r3 = JSVal.inf)
          · rw [if_pos h0]
            split_ifs <;> exact ⟨0, rfl⟩
          · rw [if_neg h0,
              if_neg (by simp : ¬(JSVal.fin r1 = JSVal.inf ∨ JSVal.fin r2 = JSVal.inf))]
            have hr3 : ¬(r3 = 0) := fun h => h0 (Or.inl (by rw [h]))
            refine ⟨max 0 (min 1 (r1 * r2 / r3)), ?_⟩
            simp only [JSVal.jsMul, JSVal.jsDiv, if_neg hr3, JSVal.jsMin, JSVal.jsMax]
        · rw [hc1, hc2, hc3]
          simp only [Except.bind]
          split_ifs <;> first | exact ⟨0, rfl⟩ | simp_all
      · rcases combinations_fin_or_inf (N - K) (n - k) with ⟨r2, hc2⟩ | hc2 <;>
          [rw [hc1, hc2, hc3]; rw [hc1, hc2, hc3]] <;>
          simp only [Except.bind] <;>
          split_ifs <;> first | exact ⟨0, rfl⟩ | simp_all
    · rcases combinations_fin_or_inf K k with ⟨r1, hc1⟩ | hc1 <;>
        rcases combinations_fin_or_inf (N - K) (n - k) with ⟨r2, hc2⟩ | hc2 <;>
        [rw [hc1, hc2, hc3]; rw [hc1, hc2, hc3]; rw [hc1, hc2, hc3]; rw [hc1, hc2, hc3]] <;>
        simp only [Except.bind] <;>
        split_ifs <;> first | exact ⟨0, rfl⟩ | simp_all

/-- Helper: the log-space accumulation for C(4000, 2000) exceeds
ln(MAX_VALUE), so `combinations 4000 2000` overflows to the infinity
sentinel. -/
theorem combinations_4000_2000_inf : combinations 4000 2000 = .ok .inf := by
  have hterm_nonneg : ∀ i ∈ Finset.range 2000,
      (0 : ℝ) ≤ Real.log ((4000 : ℝ) - i) - Real.log ((i : ℝ) + 1) := by
    intro i hi
    rw [Finset.mem_range] at hi
    have hi1 : (i : ℝ) ≤ 1999 := by exact_mod_cast Nat.lt_succ_iff.mp hi
    have h1 : (0 : ℝ) < (i : ℝ) + 1 := by positivity
    have h2 : (i : ℝ) + 1 ≤ 4000 - i := by linarith
    linarith [Real.log_le_log h1 h2]
  have hterm_one : ∀ i ∈ Finset.range 1000,
      (1 : ℝ) ≤ Real.log ((4000 : ℝ) - i) - Real.log ((i : ℝ) + 1) := by
    intro i hi
    rw [Finset.mem_range] at hi
    have hi1 : (i : ℝ) ≤ 999 := by exact_mod_cast Nat.lt_succ_iff.mp hi
    have hpos : (0 : ℝ) < (i : ℝ) + 1 := by positivity
    have hpos2 : (0 : ℝ) < (4000 : ℝ) - i := by linarith
    have h3 : Real.exp 1 ≤ ((4000 : ℝ) - i) / ((i : ℝ) + 1) := by
      have he : Real.exp 1 ≤ 3 := by linarith [Real.exp_one_lt_d9]
      have hq : (3 : ℝ) ≤ ((4000 : ℝ) - i) / ((i : ℝ) + 1) := by
        rw [le_div_iff₀ hpos]
        linarith
      linarith
    have h4 : (1 : ℝ) ≤ Real.log (((4000 : ℝ) - i) / ((i : ℝ) + 1)) := by
      rw [Real.le_log_iff_exp_le (by positivity)]
      exact h3
    rwa [Real.log_div (ne_of_gt hpos2) (ne_of_gt hpos)] at h4
  have hsum : (1000 : ℝ) ≤
      ∑ i in Finset.range 2000, (Real.log ((4000 : ℝ) - i) - Real.log ((i : ℝ) + 1)) := by
    have hsub : Finset.range 1000 ⊆ Finset.range 2000 :=
      Finset.range_subset.mpr (by norm_num)
    have h1 : ∑ i in Finset.range 1000,
        (Real.log ((4000 : ℝ) - i) - Real.log ((i : ℝ) + 1)) ≤
        ∑ i in Finset.range 2000,
        (Real.log ((4000 : ℝ) - i) - Real.log ((i : ℝ) + 1)) :=
      Finset.sum_le_sum_of_subset_of_nonneg hsub
        (fun i hi _ => hterm_nonneg i hi)
    have h2 : (1000 : ℝ) ≤ ∑ i in Finset.range 1000,
        (Real.log ((4000 : ℝ) - i) - Real.log ((i : ℝ) + 1)) := by
      calc (1000 : ℝ) = ∑ _i in Finset.range 1000, (1 : ℝ) := by simp
      _ ≤ _ := Finset.sum_le_sum hterm_one
    linarith
  have hoverflow : maxVal < Real.exp
      (∑ i in Finset.range 2000, (Real.log ((4000 : ℝ) - i) - Real.log ((i : ℝ) + 1))) := by
    have h1 : maxVal < (2 : ℝ) ^ (1024 : ℕ) := by norm_num [maxVal]
    have h2 : ((2 : ℝ) ^ (1024 : ℕ)) = Real.exp ((1024 : ℕ) * Real.log 2) := by
      rw [← Real.log_pow, Real.exp_log (by positivity)]
    have h3 : ((1024 : ℕ) : ℝ) * Real.log 2 ≤ 1000 := by
      have := Real.log_two_lt_d9
      push_cast
      nlinarith
    calc maxVal < (2 : ℝ) ^ (1024 : ℕ) := h1
    _ = Real.exp ((1024 : ℕ) * Real.log 2) := h2
    _ ≤ Real.exp 1000 := Real.exp_le_exp.mpr h3
    _ ≤ _ := Real.exp_le_exp.mpr hsum
  unfold combinations
  rw [if_neg (by norm_num), if_neg (by norm_num),
    if_neg (by norm_num : ¬((2000 : ℝ) > 4000 / 2))]
  unfold combinationsPost
  rw [if_neg (by norm_num : ¬((4000 : ℝ) < 30))]
  simp only [combinationsLog, Nat.ceil_ofNat]
  rw [if_neg (not_le.mpr hoverflow)]

/-- Helper: the log-space path evaluates C(4000, 1) to exactly 4000. -/
theorem combinations_4000_1 : combinations 4000 1 = .ok (.fin 4000) := by
  unfold combinations
  rw [if_neg (by norm_num), if_neg (by norm_num),
    if_neg (by norm_num : ¬((1 : ℝ) > 4000 / 2))]
  unfold combinationsPost
  rw [if_neg (by norm_num : ¬((4000 : ℝ) < 30))]
  simp only [combinationsLog, Nat.ceil_one, Finset.sum_range_one]
  norm_num
  rw [Real.exp_log (by norm_num : (0 : ℝ) < 4000)]
  rw [if_pos (by norm_num [maxVal] : (4000 : ℝ) ≤ maxVal)]
  unfold JSVal.jsRound
  norm_num

/-- C3: when C(N,n) is infinite the Hypergeometric component raises its
precision warning (and the computation record is produced regardless); the
PMF returns 0 whenever the denominator is non-finite, or a numerator term
is non-finite while the denominator is finite; and the PMF never produces
NaN or Infinity — it always succeeds with a finite value. -/
theorem spec_c3 :
    (∀ N K n k : ℕ,
        ((hypergeometricCalcRaw N K n k).warning ↔
          (combinations (N : ℝ) (n : ℝ) = .ok .inf ∧ 0 < n))) ∧
    (∀ N K n k : ℝ, combinations N n = .ok .inf →
        hypergeometricPMF N K n k = .ok (.fin 0)) ∧
    (∀ N K n k : ℝ,
        (combinations K k = .ok .inf ∨ combinations (N - K) (n - k) = .ok .inf) →
        (∃ d : ℝ, combinations N n = .ok (.fin d)) →
        hypergeometricPMF N K n k = .ok (.fin 0)) ∧
    (∀ N K n k : ℝ, ∃ r : ℝ, hypergeometricPMF N K n k = .ok (.fin r)) := by
  refine ⟨fun N K n k => Iff.rfl, ?_, ?_, hypergeometricPMF_fin⟩
  · intro N K n k hden
    unfold hypergeometricPMF
    split_ifs with hg
    · rfl
    · rcases combinations_fin_or_inf K k with ⟨r1, hc1⟩ | hc1 <;>
        rcases combinations_fin_or_inf (N - K) (n - k) with ⟨r2, hc2⟩ | hc2 <;>
        rw [hc1, hc2, hden] <;>
        simp [Except.bind]
  · intro N K n k hnum hden
    obtain ⟨d, hd⟩ := hden
    unfold hypergeometricPMF
    split_ifs with hg
    · rfl
    · rcases hnum with h | h
      · rcases combinations_fin_or_inf (N - K) (n - k) with ⟨r2, hc2⟩ | hc2 <;>
          rw [h, hc2, hd] <;>
          simp [Except.bind]
      · rcases combinations_fin_or_inf K k with ⟨r1, hc1⟩ | hc1 <;>
          rw [hc1, h, hd] <;>
          simp [Except.bind]

/-- Witness for C3: with N = 4000, n = 2000 the denominator C(N,n)
overflows, the component flags its warning, and the PMF reports 0; with an
infinite numerator C(4000,2000) but finite denominator C(4000,1) the PMF
also reports 0. -/
theorem spec_c3_witness :
    ((hypergeometricCalcRaw 4000 2000 2000 1000).warning ∧
      hypergeometricPMF 4000 2000 2000 1000 = .ok (.fin 0)) ∧
    hypergeometricPMF 4000 4000 1 2000 = .ok (.fin 0) := by
  have hcast : ((4000 : ℕ) : ℝ) = (4000 : ℝ) := by norm_num
  have hcast2 : ((2000 : ℕ) : ℝ) = (2000 : ℝ) := by norm_num
  refine ⟨⟨(spec_c3.1 4000 2000 2000 1000).mpr ⟨by rw [hcast, hcast2]; exact combinations_4000_2000_inf, by norm_num⟩, ?_⟩, ?_⟩
  · exact spec_c3.2.1 4000 2000 2000 1000 combinations_4000_2000_inf
  · exact spec_c3.2.2.1 4000 4000 1 2000 (Or.inl combinations_4000_2000_inf)
      ⟨4000, combinations_4000_1⟩

/-- Unfolding of `erf` (pure zeta-reduction of its let-bindings). -/
theorem erf_eq (x : ℝ) :
    erf x = (if x ≥ 0 then (1 : ℝ) else -1) *
      (1 - (((((1.061405429 * (1 / (1 + 0.3275911 * |x|)) + -1.453152027) *
            (1 / (1 + 0.3275911 * |x|))) + 1.421413741) *
            (1 / (1 + 0.3275911 * |x|)) + -0.284496736) *
            (1 / (1 + 0.3275911 * |x|)) + 0.254829592) *
            (1 / (1 + 0.3275911 * |x|)) * Real.exp (-|x| * |x|)) := rfl

set_option maxHeartbeats 1000000 in
/-- The Abramowitz–Stegun polynomial is bounded on [0, 1]: the source's
`erf` therefore never leaves [−1, 1]. -/
theorem erf_bounds (x : ℝ) : -1 ≤ erf x ∧ erf x ≤ 1 := by
  rw [erf_eq]
  have habs : (0 : ℝ) ≤ |x| := abs_nonneg x
  have hden : (1 : ℝ) ≤ 1 + 0.3275911 * |x| := by nlinarith
  set t : ℝ := 1 / (1 + 0.3275911 * |x|) with ht
  have ht0 : 0 ≤ t := by rw [ht]; positivity
  have ht1 : t ≤ 1 := by
    rw [ht, div_le_one (by linarith)]
    linarith
  set E : ℝ := Real.exp (-|x| * |x|) with hE
  have hE0 : 0 < E := Real.exp_pos _
  have hE1 : E ≤ 1 := by
    rw [hE, show (1 : ℝ) = Real.exp 0 from (Real.exp_zero).symm]
    exact Real.exp_le_exp.mpr (by nlinarith)
  have hQ0 : 0 ≤ 0.254829592 - 0.284496736 * t + 1.421413741 * t ^ 2 -
      1.453152027 * t ^ 3 + 1.061405429 * t ^ 4 := by
    nlinarith [sq_nonneg (t - 1/8), sq_nonneg (t - 1/4), sq_nonneg (t * t - t/8),
      mul_nonneg ht0 (sub_nonneg.mpr ht1), sq_nonneg t,
      mul_nonneg (mul_nonneg ht0 ht0) (sub_nonneg.mpr ht1),
      mul_nonneg (mul_nonneg (mul_nonneg ht0 ht0) ht0) (sub_nonneg.mpr ht1)]
  have hQ2 : 0.254829592 - 0.284496736 * t + 1.421413741 * t ^ 2 -
      1.453152027 * t ^ 3 + 1.061405429 * t ^ 4 ≤ 2 := by
    nlinarith [mul_nonneg (mul_nonneg (mul_nonneg ht0 ht0) ht0) (sub_nonneg.mpr ht1),
      mul_nonneg (sub_nonneg.mpr ht1) (by linarith : (0 : ℝ) ≤ 1 + t),
      mul_nonneg ht0 (sub_nonneg.mpr ht1), sq_nonneg t]
  have hQt0 : 0 ≤ (0.254829592 - 0.284496736 * t + 1.421413741 * t ^ 2 -
      1.453152027 * t ^ 3 + 1.061405429 * t ^ 4) * t := mul_nonneg hQ0 ht0
  have hQt2 : (0.254829592 - 0.284496736 * t + 1.421413741 * t ^ 2 -
      1.453152027 * t ^ 3 + 1.061405429 * t ^ 4) * t ≤ 2 :=
    le_trans (mul_le_of_le_one_right hQ0 ht1) hQ2
  have hQtE0 : 0 ≤ (0.254829592 - 0.284496736 * t + 1.421413741 * t ^ 2 -
      1.453152027 * t ^ 3 + 1.061405429 * t ^ 4) * t * E := mul_nonneg hQt0 hE0.le
  have hQtE2 : (0.254829592 - 0.284496736 * t + 1.421413741 * t ^ 2 -
      1.453152027 * t ^ 3 + 1.061405429 * t ^ 4) * t * E ≤ 2 :=
    le_trans (mul_le_of_le_one_right hQt0 hE1) hQt2
  split_ifs with hs
  · constructor <;> [nlinarith [hQtE2]; nlinarith [hQtE0]]
  · constructor <;> [nlinarith [hQtE0]; nlinarith [hQtE2]]

/-- The component clamp always lands in [0, 1]. -/
theorem clamp_mem (v : ℝ) : 0 ≤ clamp v ∧ clamp v ≤ 1 :=
  ⟨le_max_left 0 _, max_le (by norm_num) (min_le_left 1 v)⟩

/-- The finite value of `normalCDF` always lies in [0, 1]. -/
theorem normalCDFr_mem (x mean stdDev : ℝ) :
    0 ≤ normalCDFr x mean stdDev ∧ normalCDFr x mean stdDev ≤ 1 := by
  have h := erf_bounds ((x - mean) / stdDev / Real.sqrt 2)
  simp only [normalCDFr]
  constructor <;> linarith [h.1, h.2]

/-- C2: every probability returned — Poisson and Hypergeometric point,
cumulative and tail probabilities (clamped), the unclamped Normal CDF and
its tail complement, and Continuous Uniform CDF values — lies in [0, 1];
equivalently the erf approximation stays within [−1, 1] for every input. -/
theorem spec_c2 :
    (∀ x : ℝ, -1 ≤ erf x ∧ erf x ≤ 1) ∧
    (∀ x mean stdDev : ℝ, 0 < stdDev →
        normalCDF x mean stdDev = .fin (normalCDFr x mean stdDev) ∧
        0 ≤ normalCDFr x mean stdDev ∧ normalCDFr x mean stdDev ≤ 1 ∧
        ∃ g : ℝ, (normalCalculateSingle mean stdDev x).prob_greater_than_x = .fin g ∧
          g = 1 - normalCDFr x mean stdDev ∧ 0 ≤ g ∧ g ≤ 1) ∧
    (∀ (lambda : ℝ) (xv : ℕ),
        (0 ≤ (poissonCalculateProbabilities lambda xv).p_eq_x ∧
          (poissonCalculateProbabilities lambda xv).p_eq_x ≤ 1) ∧
        (0 ≤ (poissonCalculateProbabilities lambda xv).p_lt_x ∧
          (poissonCalculateProbabilities lambda xv).p_lt_x ≤ 1) ∧
        (0 ≤ (poissonCalculateProbabilities lambda xv).p_lte_x ∧
          (poissonCalculateProbabilities lambda xv).p_lte_x ≤ 1) ∧
        (0 ≤ (poissonCalculateProbabilities lambda xv).p_gt_x ∧
          (poissonCalculateProbabilities lambda xv).p_gt_x ≤ 1) ∧
        (0 ≤ (poissonCalculateProbabilities lambda xv).p_gte_x ∧
          (poissonCalculateProbabilities lambda xv).p_gte_x ≤ 1)) ∧
    (∀ N K n kv : ℕ,
        (0 ≤ (hypergeometricCalculateProbabilities N K n kv).p_eq_k ∧
          (hypergeometricCalculateProbabilities N K n kv).p_eq_k ≤ 1) ∧
        (0 ≤ (hypergeometricCalculateProbabilities N K n kv).p_lt_k ∧
          (hypergeometricCalculateProbabilities N K n kv).p_lt_k ≤ 1) ∧
        (0 ≤ (hypergeometricCalculateProbabilities N K n kv).p_lte_k ∧
          (hypergeometricCalculateProbabilities N K n kv).p_lte_k ≤ 1) ∧
        (0 ≤ (hypergeometricCalculateProbabilities N K n kv).p_gt_k ∧
          (hypergeometricCalculateProbabilities N K n kv).p_gt_k ≤ 1) ∧
        (0 ≤ (hypergeometricCalculateProbabilities N K n kv).p_gte_k ∧
          (hypergeometricCalculateProbabilities N K n kv).p_gte_k ≤ 1)) ∧
    (∀ a b x : ℝ, a < b →
        ∃ r : ℝ, continuousUniformCDF a b x = .fin r ∧ 0 ≤ r ∧ r ≤ 1) := by
  refine ⟨erf_bounds, ?_, ?_, ?_, ?_⟩
  · intro x mean stdDev hσ
    have hcdf : normalCDF x mean stdDev = .fin (normalCDFr x mean stdDev) := by
      unfold normalCDF
      rw [if_neg (not_le.mpr hσ)]
    refine ⟨hcdf, (normalCDFr_mem x mean stdDev).1, (normalCDFr_mem x mean stdDev).2,
      ⟨1 - normalCDFr x mean stdDev, ?_, rfl, ?_, ?_⟩⟩
    · simp only [normalCalculateSingle, hcdf, JSVal.jsSub, JSVal.jsNeg, JSVal.jsAdd]
      rw [← sub_eq_add_neg]
    · linarith [(normalCDFr_mem x mean stdDev).2]
    · linarith [(normalCDFr_mem x mean stdDev).1]
  · intro lambda xv
    exact ⟨clamp_mem _, clamp_mem _, clamp_mem _, clamp_mem _, clamp_mem _⟩
  · intro N K n kv
    exact ⟨clamp_mem _, clamp_mem _, clamp_mem _, clamp_mem _, clamp_mem _⟩
  · intro a b x hab
    unfold continuousUniformCDF
    rw [if_neg (not_le.mpr hab)]
    split_ifs with h1 h2
    · exact ⟨0, rfl, le_refl 0, by norm_num⟩
    · exact ⟨1, rfl, by norm_num, le_refl 1⟩
    · refine ⟨(x - a) / (b - a), rfl, ?_, ?_⟩
      · apply div_nonneg <;> linarith
      · rw [div_le_one (by linarith)]
        linarith

/-- Witness for C2 at σ = 1 and the interval (0, 10). -/
theorem spec_c2_witness :
    ((0 : ℝ) < 1 ∧ normalCDF 0 0 1 = .fin (normalCDFr 0 0 1)) ∧
    ((0 : ℝ) < 10 ∧ ∃ r : ℝ, continuousUniformCDF 0 10 5 = .fin r ∧ 0 ≤ r ∧ r ≤ 1) :=
  ⟨⟨by norm_num, (spec_c2.2.1 0 0 1 (by norm_num)).1⟩,
   ⟨by norm_num, spec_c2.2.2.2.2 0 10 5 (by norm_num)⟩⟩
